import Mathlib

/-!
Verification of the decodense partition kernel (properties.py, decodense.py,
pbctools.py) against its natural-language specification.
The numerical code is embedded shallowly: basis-set matrices become
Mathlib matrices over ℚ (exact arithmetic in place of IEEE doubles),
einsum contractions become explicit finite sums, and the error paths
(KeyError, NotImplementedError) become Except values.  All definitions
are translated from the source; the few helpers that live in modules not
present under src/ (tools.py) are modelled from the specification and
say so in their doc comments.
-/

namespace Decodense

/-- The trace contraction of properties.py, function _trace (2-dim case):
contract('ij,ij', op, rdm1) * scaling, i.e. the entrywise inner product
of an operator matrix with a density matrix, times a scaling factor. -/
def traceContr {nb : ℕ} (op d : Matrix (Fin nb) (Fin nb) ℚ) (scaling : ℚ) : ℚ :=
  (∑ p, ∑ q, op p q * d p q) * scaling

/-- The row-restricted trace contraction appearing in prop_eda
(properties.py lines 193-199): both the operator and the density are
row-sliced by the index set of basis functions centred on one atom
before contracting, so only the selected rows contribute. -/
def traceContrRows {nb : ℕ} (sel : Finset (Fin nb)) (op d : Matrix (Fin nb) (Fin nb) ℚ)
    (scaling : ℚ) : ℚ :=
  (∑ p in sel, ∑ q, op p q * d p q) * scaling

/-- Modelled from the spec: tools.make_rdm1 (imported at properties.py line 21,
tools.py is not under src/).  Spec section 3: a density matrix is "the
occupation-weighted outer product of orbital coefficients".  For a single
orbital column this is occ * orb ⬝ orbᵀ. -/
def make_rdm1_orb {nb : ℕ} (orb : Fin nb → ℚ) (occ : ℚ) : Matrix (Fin nb) (Fin nb) ℚ :=
  Matrix.of fun p q => occ * (orb p * orb q)

/-- Modelled from the spec: the total density matrix of one spin channel,
"Total density = sum over occupied orbitals" (spec section 3); the columns of
mo_coeff enumerate the occupied orbitals of the channel (spec section 3,
orbital set). -/
def make_rdm1_tot {nb nmo : ℕ} (coeff : Fin nmo → Fin nb → ℚ) (occ : Fin nmo → ℚ) :
    Matrix (Fin nb) (Fin nb) ℚ :=
  ∑ j, make_rdm1_orb (coeff j) (occ j)

/-- properties.py _h_core lines 344-347: the per-atom nuclear-attraction
operator sub_nuc[k] = -1 * mol.intor(int1e_rinv at atom k) * charges[k].
The rinv integral matrices are supplied by the external operator provider. -/
def subNucOp {natm nb : ℕ} (charges : Fin natm → ℚ)
    (rinv : Fin natm → Matrix (Fin nb) (Fin nb) ℚ) (k : Fin natm) :
    Matrix (Fin nb) (Fin nb) ℚ :=
  (-1 * charges k) • rinv k

/-- properties.py _h_core line 349: the total nuclear-attraction operator
nuc = np.sum(sub_nuc, axis=0). -/
def nucOp {natm nb : ℕ} (charges : Fin natm → ℚ)
    (rinv : Fin natm → Matrix (Fin nb) (Fin nb) ℚ) : Matrix (Fin nb) (Fin nb) ℚ :=
  ∑ k, subNucOp charges rinv k

/-- properties.py _e_nuc line 310: the internuclear distance matrix after
dist[np.diag_indices_from(dist)] = 1e200, i.e. the self-distance entries are
overwritten with the sentinel 1e200 (they are not removed from the sum). -/
def e_nuc_dist {natm : ℕ} (dist : Fin natm → Fin natm → ℚ) (i j : Fin natm) : ℚ :=
  if i = j then 10 ^ 200 else dist i j

/-- properties.py _e_nuc line 311 (mm_mol = None path):
e_nuc = contract('i,ij,j->i', charges, 1./dist, charges) * .5, with dist the
sentinel-modified distance matrix, so entry i is
(∑ j, charges i * (1 / dist i j) * charges j) * 1/2. -/
def e_nuc {natm : ℕ} (charges : Fin natm → ℚ) (dist : Fin natm → Fin natm → ℚ)
    (i : Fin natm) : ℚ :=
  (∑ j, charges i * (1 / e_nuc_dist dist i j) * charges j) * (1 / 2)

/-- The read-only inputs consumed by the nested kernel prop_atom of prop_tot
(properties.py lines 124-176), for an energy decomposition with no mm region,
no implicit solvent and a non-DFT reference (mm_pot is None, e_solvent is
None, dft_calc is False): nuclear charges, the external rinv integrals from
which _h_core builds sub_nuc and nuc, the kinetic matrix, the Coulomb (vj)
and exchange (vk) operators per spin, the occupied orbital coefficients,
occupations and population weights per spin channel (mol.alpha and mol.beta
enumerate the occupied orbitals of each channel in order, so weights[i][m]
matches column m of mo_coeff[i]), and the per-atom nuclear repulsion. -/
structure PropAtomInput (natm nb nmoA nmoB : ℕ) where
  charges : Fin natm → ℚ
  rinv : Fin natm → Matrix (Fin nb) (Fin nb) ℚ
  kin : Matrix (Fin nb) (Fin nb) ℚ
  vjA : Matrix (Fin nb) (Fin nb) ℚ
  vjB : Matrix (Fin nb) (Fin nb) ℚ
  vkA : Matrix (Fin nb) (Fin nb) ℚ
  vkB : Matrix (Fin nb) (Fin nb) ℚ
  coeffA : Fin nmoA → Fin nb → ℚ
  occA : Fin nmoA → ℚ
  wA : Fin nmoA → Fin natm → ℚ
  coeffB : Fin nmoB → Fin nb → ℚ
  occB : Fin nmoB → ℚ
  wB : Fin nmoB → Fin natm → ℚ
  nucRep : Fin natm → ℚ

namespace PropAtomInput

variable {natm nb nmoA nmoB : ℕ}

/-- properties.py line 51: the alpha block of the total 1-RDM. -/
def rdm1TotA (P : PropAtomInput natm nb nmoA nmoB) : Matrix (Fin nb) (Fin nb) ℚ :=
  make_rdm1_tot P.coeffA P.occA

/-- properties.py line 51: the beta block of the total 1-RDM. -/
def rdm1TotB (P : PropAtomInput natm nb nmoA nmoB) : Matrix (Fin nb) (Fin nb) ℚ :=
  make_rdm1_tot P.coeffB P.occB

/-- prop_atom lines 134-144 (alpha spin): the atom-specific density matrix,
each occupied orbital's single-orbital density scaled by its weight on the
atom and summed. -/
def rdm1AtomA (P : PropAtomInput natm nb nmoA nmoB) (a : Fin natm) :
    Matrix (Fin nb) (Fin nb) ℚ :=
  ∑ m, P.wA m a • make_rdm1_orb (P.coeffA m) (P.occA m)

/-- prop_atom lines 134-144 (beta spin). -/
def rdm1AtomB (P : PropAtomInput natm nb nmoA nmoB) (a : Fin natm) :
    Matrix (Fin nb) (Fin nb) ℚ :=
  ∑ m, P.wB m a • make_rdm1_orb (P.coeffB m) (P.occB m)

/-- The per-atom nuclear-attraction operator used by prop_atom. -/
def subNuc (P : PropAtomInput natm nb nmoA nmoB) (k : Fin natm) :
    Matrix (Fin nb) (Fin nb) ℚ :=
  subNucOp P.charges P.rinv k

/-- The total nuclear-attraction operator used by prop_atom. -/
def nuc (P : PropAtomInput natm nb nmoA nmoB) : Matrix (Fin nb) (Fin nb) ℚ :=
  nucOp P.charges P.rinv

/-- prop_atom line 147: res['coul'], accumulated over both spins:
half-trace of the spin-summed Coulomb operator with each spin's atomic
density. -/
def coul (P : PropAtomInput natm nb nmoA nmoB) (a : Fin natm) : ℚ :=
  traceContr (P.vjA + P.vjB) (P.rdm1AtomA a) (1 / 2)
    + traceContr (P.vjA + P.vjB) (P.rdm1AtomB a) (1 / 2)

/-- prop_atom line 148: res['exch'], accumulated over both spins:
negative half-trace of each spin's exchange operator with that spin's
atomic density. -/
def exch (P : PropAtomInput natm nb nmoA nmoB) (a : Fin natm) : ℚ :=
  -traceContr P.vkA (P.rdm1AtomA a) (1 / 2) - traceContr P.vkB (P.rdm1AtomB a) (1 / 2)

/-- prop_atom line 151: res['kin'], trace of the kinetic operator with the
spin-summed atomic density. -/
def kinE (P : PropAtomInput natm nb nmoA nmoB) (a : Fin natm) : ℚ :=
  traceContr P.kin (P.rdm1AtomA a + P.rdm1AtomB a) 1

/-- prop_atom lines 152-153: res['nuc_att'] = half-trace of the total
nuclear-attraction operator with the spin-summed atomic density, plus
half-trace of the atom's own sub_nuc operator with the spin-summed total
density. -/
def nucAtt (P : PropAtomInput natm nb nmoA nmoB) (a : Fin natm) : ℚ :=
  traceContr P.nuc (P.rdm1AtomA a + P.rdm1AtomB a) (1 / 2)
    + traceContr (P.subNuc a) (P.rdm1TotA + P.rdm1TotB) (1 / 2)

/-- prop_atom lines 169-171: res['el'], the sum of the electronic terms
(solvent and xc are 0 in the configuration modelled here). -/
def el (P : PropAtomInput natm nb nmoA nmoB) (a : Fin natm) : ℚ :=
  P.coul a + P.exch a + P.kinE a + P.nucAtt a

end PropAtomInput

/-- A concrete one-atom, one-basis-function, one-orbital-per-spin input with
all population weight on the single atom. -/
def pexC1 : PropAtomInput 1 1 1 1 where
  charges := fun _ => 1
  rinv := fun _ => Matrix.of fun _ _ => 1
  kin := Matrix.of fun _ _ => 1
  vjA := Matrix.of fun _ _ => 1
  vjB := Matrix.of fun _ _ => 1
  vkA := Matrix.of fun _ _ => 1
  vkB := Matrix.of fun _ _ => 1
  coeffA := fun _ _ => 1
  occA := fun _ => 2
  wA := fun _ _ => 1
  coeffB := fun _ _ => 1
  occB := fun _ => 2
  wB := fun _ _ => 1
  nucRep := fun _ => 0

/-- The read-only inputs consumed by the nested kernel prop_eda of prop_tot
(properties.py lines 178-224), restricted to the pieces its nuclear-attraction
component uses: nuclear charges, the rinv integrals from which _h_core builds
sub_nuc and nuc, the two spin blocks of the total 1-RDM, and the assignment of
each basis function to the atom it is centred on (the first entry of each
ao_label, properties.py lines 122 and 188). -/
structure EdaInput (natm nb : ℕ) where
  charges : Fin natm → ℚ
  rinv : Fin natm → Matrix (Fin nb) (Fin nb) ℚ
  rdm1TotA : Matrix (Fin nb) (Fin nb) ℚ
  rdm1TotB : Matrix (Fin nb) (Fin nb) ℚ
  aoAtom : Fin nb → Fin natm

namespace EdaInput

variable {natm nb : ℕ}

/-- prop_eda line 188: select = the indices of the basis functions centred
on the given atom. -/
def select (E : EdaInput natm nb) (a : Fin natm) : Finset (Fin nb) :=
  Finset.univ.filter fun p => E.aoAtom p = a

/-- The per-atom nuclear-attraction operator used by prop_eda. -/
def subNuc (E : EdaInput natm nb) (k : Fin natm) : Matrix (Fin nb) (Fin nb) ℚ :=
  subNucOp E.charges E.rinv k

/-- The total nuclear-attraction operator used by prop_eda. -/
def nuc (E : EdaInput natm nb) : Matrix (Fin nb) (Fin nb) ℚ :=
  nucOp E.charges E.rinv

/-- prop_eda lines 196-197: res['nuc_att'] =
_trace(nuc[select], rdm1_tot_summed[select], .5)
+ _trace(sub_nuc[atom], rdm1_tot_summed, .5): the first term row-restricted
to the atom's basis functions, the second against the full total density. -/
def nucAtt (E : EdaInput natm nb) (a : Fin natm) : ℚ :=
  traceContrRows (E.select a) E.nuc (E.rdm1TotA + E.rdm1TotB) (1 / 2)
    + traceContr (E.subNuc a) (E.rdm1TotA + E.rdm1TotB) (1 / 2)

end EdaInput

/-- properties.py line 296: in the bonds branch the k-th collected result is
written to spin channel 0 if k < len(rep_idx[0]) else channel 1, at position
k % len(rep_idx[0]) within the channel. -/
def bonds_slot (n0 k : ℕ) : ℕ × ℕ :=
  (if k < n0 then 0 else 1, k % n0)

/-- properties.py line 285: the execution domain lists the alpha-channel
orbitals first and then the beta-channel orbitals, so task k belongs to spin
channel 0 at position k when k < n0, and to spin channel 1 at position
k - n0 otherwise.  This is the slot owned by task k. -/
def bonds_task_slot (n0 k : ℕ) : ℕ × ℕ :=
  if k < n0 then (0, k) else (1, k - n0)

/-- The keyword-argument names that appear in the calls from main to
prop_tot (decodense.py lines 51-74) and in the lookups inside prop_tot. -/
inductive Kwarg where
  | gauge_origin
  | ndo
  | weights
  | rep_idx
  | centres
  | dipole_origin
  deriving DecidableEq

/-- The two recognized property types (spec section 6). -/
inductive PropKind where
  | energy
  | dipole
  deriving DecidableEq

/-- Python runtime errors modelled in this development. -/
inductive PyErr where
  | keyError (k : Kwarg)
  | notImplementedError
  deriving DecidableEq

/-- decodense.py lines 51-55 (atoms/eda branch): the keyword arguments main
passes into prop_tot's kwargs dict. -/
def main_kwargs_atoms : List Kwarg :=
  [Kwarg.gauge_origin, Kwarg.ndo, Kwarg.weights]

/-- decodense.py lines 63-67 (bonds branch): the keyword arguments main
passes into prop_tot's kwargs dict. -/
def main_kwargs_bonds : List Kwarg :=
  [Kwarg.gauge_origin, Kwarg.ndo, Kwarg.rep_idx, Kwarg.centres]

/-- properties.py lines 43-48: in dipole mode prop_tot evaluates the AO
dipole integrals inside with_common_origin(kwargs['dipole_origin']); the
dict lookup raises KeyError when the key is absent.  Returns ok true when
the dipole integrals are evaluated with the supplied origin, ok false when
prop_type is not dipole (ao_dip = None). -/
def ao_dip_gate (pt : PropKind) (kw : List Kwarg) : Except PyErr Bool :=
  if pt = PropKind.dipole then
    if Kwarg.dipole_origin ∈ kw then Except.ok true
    else Except.error (PyErr.keyError Kwarg.dipole_origin)
  else Except.ok false

/-- The fields of the density-fitting object and its cell that the guard at
pbctools.py lines 54 and 78 inspects: mydf._prefer_ccdf and cell.omega. -/
structure PbcDF where
  prefer_ccdf : Bool
  cell_omega : ℚ

/-- pbctools.py lines 45-65, get_nuc_atomic_df: if mydf._prefer_ccdf or
cell.omega > 0, raise NotImplementedError (no long-range el-nuc integrals);
otherwise return the matrix assembled by the _RSNucBuilder machinery, which
is abstracted here as the input buildRes. -/
def get_nuc_atomic_df {M : Type} (mydf : PbcDF) (buildRes : M) : Except PyErr M :=
  if mydf.prefer_ccdf = true ∨ 0 < mydf.cell_omega then
    Except.error PyErr.notImplementedError
  else Except.ok buildRes

/-- pbctools.py lines 68-98, get_pp_atomic_df: same guard, pseudopotential
variant returning the triple (vpp_total, vpp_loc1_at, vpp_loc2_at+vpp_nl_at),
abstracted here as the input buildRes3. -/
def get_pp_atomic_df {M : Type} (mydf : PbcDF) (buildRes3 : M × M × M) :
    Except PyErr (M × M × M) :=
  if mydf.prefer_ccdf = true ∨ 0 < mydf.cell_omega then
    Except.error PyErr.notImplementedError
  else Except.ok buildRes3

/-- The declared reference kinds (spec section 6). -/
inductive RefKind where
  | restricted
  | unrestricted
  deriving DecidableEq

/-- The Python value bound to prop_tot's positional ref parameter: either
None, an ndarray (represented by its ndim), or a reference-kind string. -/
inductive PyVal where
  | pyNone
  | pyArr (ndim : ℕ)
  | pyStr (r : RefKind)
  deriving DecidableEq

/-- decodense.py lines 51, 63 and 70: main calls
prop_tot(mol, mf, mo_coeff, mo_occ, rdm1_eff, decomp.pop, ...), so the fifth
positional argument, bound to prop_tot's ref parameter (properties.py
line 30), is rdm1_eff: None or an ndarray, never a string. -/
def main_ref_arg : Option ℕ → PyVal
  | none => PyVal.pyNone
  | some d => PyVal.pyArr d

/-- properties.py line 492: the test ref == 'restricted'.  It is true only
when ref is the actual string 'restricted' (None == str and ndarray == str
are falsy in this position). -/
def refEqRestricted : PyVal → Bool
  | PyVal.pyStr RefKind.restricted => true
  | _ => false

/-- The three branches of _make_rho (properties.py lines 488-499). -/
inductive RhoBranch where
  | twoDim
  | restrictedDoubled
  | unrestricted
  deriving DecidableEq

/-- _make_rho's branch selection (properties.py lines 488-499): the 2-dim
branch for a single-spin density, otherwise the restricted branch only when
ref == 'restricted', else the unrestricted branch. -/
def make_rho_branch (ndim : ℕ) (ref : PyVal) : RhoBranch :=
  if ndim = 2 then RhoBranch.twoDim
  else if refEqRestricted ref then RhoBranch.restrictedDoubled
  else RhoBranch.unrestricted

/-- prop_tot line 62 (atoms/eda modes): charge_atom =
pmol.atom_charges() - np.sum(weights[0] + weights[1], axis=0): each atom's
nuclear charge minus the population weight assigned to it, summed over both
spin channels and all occupied orbitals (the elementwise array addition
requires the two channels to carry the same number n of orbitals). -/
def charge_atom {natm n : ℕ} (charges : Fin natm → ℚ)
    (w0 w1 : Fin n → Fin natm → ℚ) (a : Fin natm) : ℚ :=
  charges a - ∑ m, (w0 m a + w1 m a)

/-- A concrete helium-like single atom: nuclear charge 2, one occupied
orbital per spin channel, all weight on the single atom. -/
def cexCharges : Fin 1 → ℚ := fun _ => 2

/-- Full population weight of the single orbital on the single atom. -/
def cexW : Fin 1 → Fin 1 → ℚ := fun _ _ => 1

/-- The reduction step of the pool model: recover the value of domain index
k from the list of (index, value) pairs produced in completion order. -/
def lookup_idx {n : ℕ} (rs : List (Fin n × ℚ)) (k : Fin n) : ℚ :=
  match rs.find? (fun p => decide (p.1 = k)) with
  | some p => p.2
  | none => 0

/-- pool.map / pool.starmap model (properties.py lines 266-269 and 287-290):
the worker pool evaluates the pure kernel f on every element of the domain;
tasks finish in an arbitrary completion order σ, each yielding the pair
(domain index, kernel value), and the pool hands back the values reordered
by domain index. -/
def pool_map_res {n : ℕ} (f : Fin n → ℚ) (σ : Equiv.Perm (Fin n)) : List ℚ :=
  (List.finRange n).map
    (lookup_idx ((List.finRange n).map fun i => (σ i, f (σ i))))

/-- Sequential execution (properties.py lines 271 and 292): an ordered map
of the kernel over the domain. -/
def seq_map_res {n : ℕ} (f : Fin n → ℚ) : List ℚ :=
  (List.finRange n).map f

/-- prop_tot's kernel execution (properties.py lines 265-271 and 286-292):
the list of per-task results handed to the collection loop, produced either
by the worker pool (multiproc = true) or by the sequential map. -/
def prop_tot_exec {n : ℕ} (f : Fin n → ℚ) (multiproc : Bool)
    (σ : Equiv.Perm (Fin n)) : List ℚ :=
  if multiproc then pool_map_res f σ else seq_map_res f

/-- A concrete one-atom input identical to pexC1 except that the atom's
population weight is zero in both spin channels. -/
def pzero : PropAtomInput 1 1 1 1 where
  charges := fun _ => 1
  rinv := fun _ => Matrix.of fun _ _ => 1
  kin := Matrix.of fun _ _ => 1
  vjA := Matrix.of fun _ _ => 1
  vjB := Matrix.of fun _ _ => 1
  vkA := Matrix.of fun _ _ => 1
  vkB := Matrix.of fun _ _ => 1
  coeffA := fun _ _ => 1
  occA := fun _ => 2
  wA := fun _ _ => 0
  coeffB := fun _ _ => 1
  occB := fun _ => 2
  wB := fun _ _ => 0
  nucRep := fun _ => 0

/-- Trace contraction is additive in the density argument. -/
theorem traceContr_add_right {nb : ℕ} (op d e : Matrix (Fin nb) (Fin nb) ℚ) (s : ℚ) :
    traceContr op (d + e) s = traceContr op d s + traceContr op e s := by
  simp [traceContr, Matrix.add_apply, mul_add, Finset.sum_add_distrib, add_mul]

/-- Trace contraction maps a zero density to zero. -/
theorem traceContr_zero_right {nb : ℕ} (op : Matrix (Fin nb) (Fin nb) ℚ) (s : ℚ) :
    traceContr op 0 s = 0 := by
  simp [traceContr]

/-- Trace contraction commutes with finite sums of densities. -/
theorem traceContr_sum_right {nb : ℕ} {ι : Type} (t : Finset ι)
    (op : Matrix (Fin nb) (Fin nb) ℚ) (d : ι → Matrix (Fin nb) (Fin nb) ℚ) (s : ℚ) :
    traceContr op (∑ i in t, d i) s = ∑ i in t, traceContr op (d i) s := by
  classical
  induction t using Finset.induction_on with
  | empty => simp [traceContr]
  | insert hni ih =>
      rw [Finset.sum_insert hni, Finset.sum_insert hni, traceContr_add_right, ih]

/-- Trace contraction is additive in the operator argument. -/
theorem traceContr_add_left {nb : ℕ} (op op' d : Matrix (Fin nb) (Fin nb) ℚ) (s : ℚ) :
    traceContr (op + op') d s = traceContr op d s + traceContr op' d s := by
  simp [traceContr, Matrix.add_apply, add_mul, Finset.sum_add_distrib]

/-- Trace contraction commutes with finite sums of operators. -/
theorem traceContr_sum_left {nb : ℕ} {ι : Type} (t : Finset ι)
    (op : ι → Matrix (Fin nb) (Fin nb) ℚ) (d : Matrix (Fin nb) (Fin nb) ℚ) (s : ℚ) :
    traceContr (∑ i in t, op i) d s = ∑ i in t, traceContr (op i) d s := by
  classical
  induction t using Finset.induction_on with
  | empty => simp [traceContr]
  | insert hni ih =>
      rw [Finset.sum_insert hni, Finset.sum_insert hni, traceContr_add_left, ih]

/-- When every occupied alpha orbital's weights over all atoms sum to 1, the
atom-restricted alpha densities sum over atoms to the total alpha density. -/
theorem rdm1AtomA_sum {natm nb nmoA nmoB : ℕ} (P : PropAtomInput natm nb nmoA nmoB)
    (hw : ∀ m, ∑ a, P.wA m a = 1) : ∑ a, P.rdm1AtomA a = P.rdm1TotA := by
  unfold PropAtomInput.rdm1AtomA PropAtomInput.rdm1TotA make_rdm1_tot
  rw [Finset.sum_comm]
  refine Finset.sum_congr rfl fun m _ => ?_
  rw [← Finset.sum_smul, hw m, one_smul]

/-- Beta-spin version of rdm1AtomA_sum. -/
theorem rdm1AtomB_sum {natm nb nmoA nmoB : ℕ} (P : PropAtomInput natm nb nmoA nmoB)
    (hw : ∀ m, ∑ a, P.wB m a = 1) : ∑ a, P.rdm1AtomB a = P.rdm1TotB := by
  unfold PropAtomInput.rdm1AtomB PropAtomInput.rdm1TotB make_rdm1_tot
  rw [Finset.sum_comm]
  refine Finset.sum_congr rfl fun m _ => ?_
  rw [← Finset.sum_smul, hw m, one_smul]

/-- The sum of the per-atom nuclear-attraction operators is the total one. -/
theorem subNuc_sum {natm nb nmoA nmoB : ℕ} (P : PropAtomInput natm nb nmoA nmoB) :
    ∑ a, P.subNuc a = P.nuc := by
  simp [PropAtomInput.subNuc, PropAtomInput.nuc, nucOp]

/-- C1: in the atom-weighted strategy the nuclear-attraction component of
prop_atom for atom a is the half-trace of the total nuclear-attraction
operator with atom a's weight-restricted partial density plus the half-trace
of atom a's own per-atom nuclear-attraction operator with the total density;
and whenever every occupied orbital's weights over all atoms sum to 1, the
components sum over atoms to the trace of the total nuclear-attraction
operator with the total density (the full nuclear-attraction energy counted
exactly once). -/
theorem prop_atom_nuc_att_conservation {natm nb nmoA nmoB : ℕ}
    (P : PropAtomInput natm nb nmoA nmoB)
    (hwA : ∀ m, ∑ a, P.wA m a = 1) (hwB : ∀ m, ∑ a, P.wB m a = 1) :
    (∀ a, P.nucAtt a
        = traceContr P.nuc (P.rdm1AtomA a + P.rdm1AtomB a) (1 / 2)
          + traceContr (P.subNuc a) (P.rdm1TotA + P.rdm1TotB) (1 / 2))
    ∧ ∑ a, P.nucAtt a = traceContr P.nuc (P.rdm1TotA + P.rdm1TotB) 1 := by
  constructor
  · intro a
    rfl
  · have hA := rdm1AtomA_sum P hwA
    have hB := rdm1AtomB_sum P hwB
    calc ∑ a, P.nucAtt a
        = ∑ a, traceContr P.nuc (P.rdm1AtomA a + P.rdm1AtomB a) (1 / 2)
          + ∑ a, traceContr (P.subNuc a) (P.rdm1TotA + P.rdm1TotB) (1 / 2) := by
          rw [← Finset.sum_add_distrib]
          rfl
      _ = traceContr P.nuc (∑ a, (P.rdm1AtomA a + P.rdm1AtomB a)) (1 / 2)
          + traceContr (∑ a, P.subNuc a) (P.rdm1TotA + P.rdm1TotB) (1 / 2) := by
          rw [traceContr_sum_right, traceContr_sum_left]
      _ = traceContr P.nuc (P.rdm1TotA + P.rdm1TotB) (1 / 2)
          + traceContr P.nuc (P.rdm1TotA + P.rdm1TotB) (1 / 2) := by
          rw [Finset.sum_add_distrib, hA, hB, subNuc_sum]
      _ = traceContr P.nuc (P.rdm1TotA + P.rdm1TotB) 1 := by
          unfold traceContr
          ring

/-- Witness for C1 at the concrete input pexC1. -/
theorem prop_atom_nuc_att_conservation_witness :
    ∑ a, pexC1.nucAtt a = traceContr pexC1.nuc (pexC1.rdm1TotA + pexC1.rdm1TotB) 1 :=
  (prop_atom_nuc_att_conservation pexC1
    (by intro m; simp [pexC1] : ∀ m : Fin 1, ∑ a, pexC1.wA m a = 1)
    (by intro m; simp [pexC1] : ∀ m : Fin 1, ∑ a, pexC1.wB m a = 1)).2

/-- The sum of the per-atom nuclear-attraction operators is the total one
(EDA variant). -/
theorem eda_subNuc_sum {natm nb : ℕ} (E : EdaInput natm nb) :
    ∑ a, E.subNuc a = E.nuc := by
  simp [EdaInput.subNuc, EdaInput.nuc, nucOp]

/-- Summing the row-restricted trace over the atoms recovers the full trace,
because every basis-function row is centred on exactly one atom. -/
theorem eda_rows_fiberwise {natm nb : ℕ} (E : EdaInput natm nb)
    (op d : Matrix (Fin nb) (Fin nb) ℚ) (s : ℚ) :
    ∑ a, traceContrRows (E.select a) op d s = traceContr op d s := by
  unfold traceContrRows traceContr EdaInput.select
  rw [← Finset.sum_mul]
  rw [Finset.sum_fiberwise Finset.univ (fun p => E.aoAtom p) (fun p => ∑ q, op p q * d p q)]

/-- C2: in the EDA strategy the nuclear-attraction component of prop_eda for
atom a is the half-trace, restricted to the rows of the basis functions
centred on atom a, of the total nuclear-attraction operator with the total
density, plus the unrestricted half-trace of atom a's own per-atom operator
with the full total density; and these asymmetric components sum over atoms
to the trace of the total nuclear-attraction operator with the total
density, the whole nuclear-attraction energy. -/
theorem prop_eda_nuc_att_conservation {natm nb : ℕ} (E : EdaInput natm nb) :
    (∀ a, E.nucAtt a
        = traceContrRows (E.select a) E.nuc (E.rdm1TotA + E.rdm1TotB) (1 / 2)
          + traceContr (E.subNuc a) (E.rdm1TotA + E.rdm1TotB) (1 / 2))
    ∧ ∑ a, E.nucAtt a = traceContr E.nuc (E.rdm1TotA + E.rdm1TotB) 1 := by
  constructor
  · intro a
    rfl
  · calc ∑ a, E.nucAtt a
        = ∑ a, traceContrRows (E.select a) E.nuc (E.rdm1TotA + E.rdm1TotB) (1 / 2)
          + ∑ a, traceContr (E.subNuc a) (E.rdm1TotA + E.rdm1TotB) (1 / 2) := by
          rw [← Finset.sum_add_distrib]
          rfl
      _ = traceContr E.nuc (E.rdm1TotA + E.rdm1TotB) (1 / 2)
          + traceContr (∑ a, E.subNuc a) (E.rdm1TotA + E.rdm1TotB) (1 / 2) := by
          rw [eda_rows_fiberwise, traceContr_sum_left]
      _ = traceContr E.nuc (E.rdm1TotA + E.rdm1TotB) 1 := by
          rw [eda_subNuc_sum]
          unfold traceContr
          ring

/-- The sentinel distance on the diagonal. -/
theorem e_nuc_dist_self {natm : ℕ} (dist : Fin natm → Fin natm → ℚ) (i : Fin natm) :
    e_nuc_dist dist i i = 10 ^ 200 := by
  unfold e_nuc_dist
  exact if_pos rfl

/-- Off the diagonal the sentinel matrix agrees with the distance matrix. -/
theorem e_nuc_dist_off {natm : ℕ} (dist : Fin natm → Fin natm → ℚ) (i j : Fin natm)
    (h : j ≠ i) : e_nuc_dist dist i j = dist i j := by
  unfold e_nuc_dist
  exact if_neg fun h2 => h h2.symm

/-- C3 counterexample: for a single atom of unit charge the claim predicts a
structural entry of exactly 0 (the pairwise sum over the other atoms is
empty), but _e_nuc only overwrites the self-distance with the sentinel 1e200
instead of excluding the term, so in exact arithmetic the entry is
1 / (2 * 10^200), which is not 0. -/
theorem e_nuc_self_term_cex :
    e_nuc (fun _ : Fin 1 => 1) (fun _ _ => 1) 0 = 1 / (2 * 10 ^ 200)
    ∧ (∑ _j in Finset.univ.erase (0 : Fin 1), (1 : ℚ) * (1 / (1 : ℚ)) * 1) * (1 / 2) = 0
    ∧ e_nuc (fun _ : Fin 1 => 1) (fun _ _ => 1) 0 ≠ 0 := by
  refine ⟨?_, ?_, ?_⟩
  · simp [e_nuc, e_nuc_dist]
  · simp
  · simp [e_nuc, e_nuc_dist]

/-- C3 amended: each structural entry of _e_nuc equals one half the sum over
the other atoms of the product of the two nuclear charges divided by their
internuclear distance, plus a residual self term q_i^2 / (2 * 10^200) left by
the 1e200 sentinel distance (the self term is suppressed, not excluded by
construction); and in exact arithmetic the entries sum to the total pairwise
nuclear-repulsion energy plus the total residual (∑ i, q_i^2) / (2 * 10^200). -/
theorem e_nuc_pairwise_conservation {natm : ℕ} (charges : Fin natm → ℚ)
    (dist : Fin natm → Fin natm → ℚ) :
    (∀ i, e_nuc charges dist i
        = (∑ j in Finset.univ.erase i, charges i * (1 / dist i j) * charges j) * (1 / 2)
          + charges i ^ 2 / (2 * 10 ^ 200))
    ∧ ∑ i, e_nuc charges dist i
        = (∑ i, ∑ j in Finset.univ.erase i,
            charges i * (1 / dist i j) * charges j) * (1 / 2)
          + (∑ i, charges i ^ 2) / (2 * 10 ^ 200) := by
  have h1 : ∀ i, e_nuc charges dist i
      = (∑ j in Finset.univ.erase i, charges i * (1 / dist i j) * charges j) * (1 / 2)
        + charges i ^ 2 / (2 * 10 ^ 200) := by
    intro i
    unfold e_nuc
    rw [← Finset.add_sum_erase Finset.univ _ (Finset.mem_univ i), e_nuc_dist_self]
    rw [Finset.sum_congr rfl fun j hj => by
      rw [e_nuc_dist_off dist i j (Finset.ne_of_mem_erase hj)]]
    ring
  refine ⟨h1, ?_⟩
  rw [Finset.sum_congr rfl fun i _ => h1 i]
  rw [Finset.sum_add_distrib, ← Finset.sum_mul, ← Finset.sum_div]

/-- C4 counterexample: with one alpha orbital and two beta orbitals
(rep_idx channel lengths 1 and 2, both tasks in range of the domain of
length 3), task 2 is the beta orbital at position 1, but the collection loop
stores it at position 2 % 1 = 0 of the beta channel, the same slot that
task 1 writes: the result lands in the wrong slot and two tasks share one. -/
theorem bonds_slot_cex :
    bonds_slot 1 2 ≠ bonds_task_slot 1 2 ∧ bonds_slot 1 1 = bonds_slot 1 2 := by
  decide

/-- C4 amended: provided the beta channel contains at most as many orbitals
as the alpha channel (n1 ≤ n0), the k-th result of the execution domain is
stored in the slot belonging to exactly that task's spin channel and orbital
position within the channel, independent of completion order (the slot is a
function of the domain index alone), and no two tasks write to the same
slot; without that proviso the claim fails (see the counterexample). -/
theorem bonds_slot_correct (n0 n1 : ℕ) (h : n1 ≤ n0) :
    (∀ k, k < n0 + n1 → bonds_slot n0 k = bonds_task_slot n0 k)
    ∧ ∀ k k', k < n0 + n1 → k' < n0 + n1 →
        bonds_slot n0 k = bonds_slot n0 k' → k = k' := by
  have hslot : ∀ k, k < n0 + n1 → bonds_slot n0 k = bonds_task_slot n0 k := by
    intro k hk
    unfold bonds_slot bonds_task_slot
    by_cases hlt : k < n0
    · simp [hlt, Nat.mod_eq_of_lt hlt]
    · have hge : n0 ≤ k := Nat.le_of_not_lt hlt
      have hm : k % n0 = k - n0 := by
        rw [Nat.mod_eq_sub_mod hge, Nat.mod_eq_of_lt (by omega)]
      simp [hlt, hm]
  refine ⟨hslot, ?_⟩
  intro k k' hk hk' he
  rw [hslot k hk, hslot k' hk'] at he
  unfold bonds_task_slot at he
  by_cases h1 : k < n0 <;> by_cases h2 : k' < n0 <;>
    simp [h1, h2, Prod.ext_iff] at he <;> omega

/-- Witness for the amended C4 at concrete channel lengths 2 and 1. -/
theorem bonds_slot_correct_witness :
    bonds_slot 2 2 = bonds_task_slot 2 2 :=
  (bonds_slot_correct 2 1 (by decide)).1 2 (by decide)

/-- C5 (code bug): a dipole request through main always fails with
KeyError('dipole_origin'): main supplies the origin under the keyword
gauge_origin (decodense.py line 54), but prop_tot looks up the key
dipole_origin (properties.py line 45), which is in neither branch's
keyword set, so the AO dipole integrals are never evaluated with the
configured decomp.gauge_origin. -/
theorem main_dipole_origin_keyerror :
    ao_dip_gate PropKind.dipole main_kwargs_atoms
        = Except.error (PyErr.keyError Kwarg.dipole_origin)
    ∧ ao_dip_gate PropKind.dipole main_kwargs_bonds
        = Except.error (PyErr.keyError Kwarg.dipole_origin)
    ∧ Kwarg.dipole_origin ∉ main_kwargs_atoms
    ∧ Kwarg.gauge_origin ∈ main_kwargs_atoms :=
  ⟨rfl, rfl, by decide, by decide⟩

/-- C9: whenever the density-fitting object prefers the compensated-charge
builder or the cell has a positive range-separation parameter omega, both
get_nuc_atomic_df and get_pp_atomic_df raise NotImplementedError rather than
returning a per-atom nuclear-attraction matrix. -/
theorem pbc_long_range_rejected {M : Type} (mydf : PbcDF) (b : M) (b3 : M × M × M)
    (h : mydf.prefer_ccdf = true ∨ 0 < mydf.cell_omega) :
    get_nuc_atomic_df mydf b = Except.error PyErr.notImplementedError
    ∧ get_pp_atomic_df mydf b3 = Except.error PyErr.notImplementedError := by
  constructor
  · unfold get_nuc_atomic_df
    exact if_pos h
  · unfold get_pp_atomic_df
    exact if_pos h

/-- Witness for C9 at a concrete density-fitting object preferring the
compensated-charge builder. -/
theorem pbc_long_range_rejected_witness :
    get_nuc_atomic_df (PbcDF.mk true 0) (0 : ℚ) = Except.error PyErr.notImplementedError
    ∧ get_pp_atomic_df (PbcDF.mk true 0) ((0 : ℚ), 0, 0)
        = Except.error PyErr.notImplementedError :=
  pbc_long_range_rejected (PbcDF.mk true 0) 0 (0, 0, 0) (Or.inl rfl)

/-- C10: for every invocation through main, the ref argument of prop_tot is
rdm1_eff (None or an ndarray), never the reference-kind string, so on the
spin-stacked total density (ndim 3) _make_rho always takes the unrestricted
branch and its restricted branch is unreachable, whatever the declared
reference kind. -/
theorem main_ref_never_restricted (eff : Option ℕ) :
    refEqRestricted (main_ref_arg eff) = false
    ∧ (∀ r, main_ref_arg eff ≠ PyVal.pyStr r)
    ∧ make_rho_branch 3 (main_ref_arg eff) = RhoBranch.unrestricted := by
  refine ⟨?_, ?_, ?_⟩
  · cases eff <;> rfl
  · intro r
    cases eff <;> simp [main_ref_arg]
  · cases eff <;> rfl

/-- C6: each entry of charge_atom equals the atom's nuclear charge minus the
sum over both spin channels and all orbitals of that atom's population
weight; and when every occupied orbital's weights over all atoms sum to 1,
the atomic charges sum over atoms to the total nuclear charge minus the
total number n + n of occupied spin orbitals (zero for a neutral molecule). -/
theorem charge_atom_conservation {natm n : ℕ} (charges : Fin natm → ℚ)
    (w0 w1 : Fin n → Fin natm → ℚ)
    (h0 : ∀ m, ∑ a, w0 m a = 1) (h1 : ∀ m, ∑ a, w1 m a = 1) :
    (∀ a, charge_atom charges w0 w1 a
        = charges a - ((∑ m, w0 m a) + ∑ m, w1 m a))
    ∧ ∑ a, charge_atom charges w0 w1 a = (∑ a, charges a) - ((n : ℚ) + n) := by
  constructor
  · intro a
    unfold charge_atom
    rw [Finset.sum_add_distrib]
  · unfold charge_atom
    rw [Finset.sum_sub_distrib]
    congr 1
    calc ∑ a, ∑ m, (w0 m a + w1 m a)
        = ∑ m, ∑ a, (w0 m a + w1 m a) := Finset.sum_comm
      _ = ∑ _m : Fin n, ((1 : ℚ) + 1) := by
          refine Finset.sum_congr rfl fun m _ => ?_
          rw [Finset.sum_add_distrib, h0 m, h1 m]
      _ = (n : ℚ) + n := by
          rw [Finset.sum_const]
          simp [nsmul_eq_mul]

/-- Witness for C6 at the concrete neutral one-atom input: the atomic
charges sum to 2 - (1 + 1) = 0. -/
theorem charge_atom_conservation_witness :
    ∑ a, charge_atom cexCharges cexW cexW a = (∑ a, cexCharges a) - ((1 : ℚ) + 1) :=
  (charge_atom_conservation cexCharges cexW cexW
    (by intro m; simp [cexW] : ∀ m : Fin 1, ∑ a, cexW m a = 1)
    (by intro m; simp [cexW] : ∀ m : Fin 1, ∑ a, cexW m a = 1)).2

/-- Looking a domain index up among the completed (index, value) pairs
recovers the kernel value at that index, for every completion order. -/
theorem lookup_idx_pool {n : ℕ} (f : Fin n → ℚ) (σ : Equiv.Perm (Fin n)) (k : Fin n) :
    lookup_idx ((List.finRange n).map fun i => (σ i, f (σ i))) k = f k := by
  unfold lookup_idx
  cases h : ((List.finRange n).map fun i => (σ i, f (σ i))).find?
      (fun p => decide (p.1 = k)) with
  | none =>
      exfalso
      have hmem : (k, f k) ∈ (List.finRange n).map fun i => (σ i, f (σ i)) := by
        refine List.mem_map.mpr ⟨σ.symm k, List.mem_finRange _, ?_⟩
        simp
      have hfalse := List.find?_eq_none.mp h _ hmem
      simp at hfalse
  | some pr =>
      have hfind := List.find?_some h
      have hp : pr.1 = k := by simpa using hfind
      rcases List.mem_map.mp (List.mem_of_find?_eq_some h) with ⟨i, _, hip⟩
      have h2 : f (σ i) = pr.2 := congrArg Prod.snd hip
      have h1 : σ i = pr.1 := congrArg Prod.fst hip
      show pr.2 = f k
      rw [← h2, h1, hp]

/-- The pool result list coincides with the sequential result list. -/
theorem pool_map_res_eq {n : ℕ} (f : Fin n → ℚ) (σ : Equiv.Perm (Fin n)) :
    pool_map_res f σ = seq_map_res f := by
  unfold pool_map_res seq_map_res
  exact List.map_congr_left fun k _ => lookup_idx_pool f σ k

/-- C7: for every pure kernel, every domain and every completion order of
the worker pool, the parallel execution path of prop_tot hands the
collection loop exactly the result list of the sequential path; since the
collection loops are deterministic functions of that ordered list, the
assembled result structures of all three strategies are identical with the
parallel flag on or off. -/
theorem prop_tot_parallel_sequential {n : ℕ} (f : Fin n → ℚ)
    (σ : Equiv.Perm (Fin n)) (multiproc : Bool) :
    prop_tot_exec f multiproc σ = prop_tot_exec f false σ := by
  cases multiproc with
  | false => rfl
  | true =>
      show pool_map_res f σ = seq_map_res f
      exact pool_map_res_eq f σ

/-- C8 counterexample: at pzero the single atom carries zero population
weight in every spin channel and orbital, yet prop_atom's electronic
contribution is -2, not 0: the second nuclear-attraction term, the trace of
the atom's own nuclear operator with the total density, survives. -/
theorem prop_atom_zero_weight_cex :
    pzero.nucAtt 0 = -2 ∧ pzero.el 0 = -2 ∧ pzero.el 0 ≠ 0 := by
  refine ⟨?_, ?_, ?_⟩ <;>
    norm_num [pzero, PropAtomInput.el, PropAtomInput.coul, PropAtomInput.exch,
      PropAtomInput.kinE, PropAtomInput.nucAtt, PropAtomInput.rdm1AtomA,
      PropAtomInput.rdm1AtomB, PropAtomInput.rdm1TotA, PropAtomInput.rdm1TotB,
      PropAtomInput.subNuc, PropAtomInput.nuc, traceContr, make_rdm1_orb,
      make_rdm1_tot, subNucOp, nucOp, Matrix.add_apply, Matrix.smul_apply,
      Matrix.sum_apply]

/-- C8 amended: for an atom whose population weight is zero for every spin
channel and orbital, the weight-restricted densities vanish, so the Coulomb,
exchange and kinetic contributions and the first nuclear-attraction term are
zero and no division is performed; the nuclear-attraction component does not
vanish but reduces to the half-trace of the atom's own nuclear operator with
the total density, and the electronic contribution equals exactly that
term. -/
theorem prop_atom_zero_weight {natm nb nmoA nmoB : ℕ}
    (P : PropAtomInput natm nb nmoA nmoB) (a : Fin natm)
    (hA : ∀ m, P.wA m a = 0) (hB : ∀ m, P.wB m a = 0) :
    P.rdm1AtomA a = 0 ∧ P.rdm1AtomB a = 0
    ∧ P.coul a = 0 ∧ P.exch a = 0 ∧ P.kinE a = 0
    ∧ P.nucAtt a = traceContr (P.subNuc a) (P.rdm1TotA + P.rdm1TotB) (1 / 2)
    ∧ P.el a = traceContr (P.subNuc a) (P.rdm1TotA + P.rdm1TotB) (1 / 2) := by
  have hDA : P.rdm1AtomA a = 0 := by
    unfold PropAtomInput.rdm1AtomA
    rw [Finset.sum_congr rfl fun m _ => by rw [hA m, zero_smul]]
    simp
  have hDB : P.rdm1AtomB a = 0 := by
    unfold PropAtomInput.rdm1AtomB
    rw [Finset.sum_congr rfl fun m _ => by rw [hB m, zero_smul]]
    simp
  have hcoul : P.coul a = 0 := by
    unfold PropAtomInput.coul
    rw [hDA, hDB, traceContr_zero_right]
    ring
  have hexch : P.exch a = 0 := by
    unfold PropAtomInput.exch
    rw [hDA, hDB, traceContr_zero_right, traceContr_zero_right]
    ring
  have hkin : P.kinE a = 0 := by
    unfold PropAtomInput.kinE
    rw [hDA, hDB, add_zero, traceContr_zero_right]
  have hnuc : P.nucAtt a
      = traceContr (P.subNuc a) (P.rdm1TotA + P.rdm1TotB) (1 / 2) := by
    unfold PropAtomInput.nucAtt
    rw [hDA, hDB, add_zero, traceContr_zero_right, zero_add]
  refine ⟨hDA, hDB, hcoul, hexch, hkin, hnuc, ?_⟩
  unfold PropAtomInput.el
  rw [hcoul, hexch, hkin, hnuc]
  ring

/-- Witness for the amended C8 at the concrete zero-weight input pzero. -/
theorem prop_atom_zero_weight_witness :
    pzero.el 0 = traceContr (pzero.subNuc 0) (pzero.rdm1TotA + pzero.rdm1TotB) (1 / 2) :=
  (prop_atom_zero_weight pzero 0
    (by intro m; rfl : ∀ m : Fin 1, pzero.wA m 0 = 0)
    (by intro m; rfl : ∀ m : Fin 1, pzero.wB m 0 = 0)).2.2.2.2.2.2

end Decodense
